import Mathlib

/-!
Verification development for the "indianhistorybite" backend
(`app/src/server.js`, queue-and-rerun variant, and `app/src/security.js`).

The development shallowly embeds:
  * the Result Store snapshot (`currentResult`),
  * the single-flight coordinator (`requestQueue` / `isCurrentlyProcessing` /
    `processPromptFile`) as an event-driven state machine,
  * the generation call and response normalizer (`executeClaudeAPICall`,
    including the regex-based JSON repair pass),
  * the prompt augmenter (the template built inside `processPromptFile`),
  * the API-key middleware (`requireApiKey` in `security.js`).

JavaScript runs a single thread; request handlers can only interleave at
suspension points (awaits on real I/O).  Store mutations are therefore
modelled at two granularities: a list of store write operations (to reason
about the shape of each write) grouped into synchronous blocks (to reason
about the states a concurrent reader can observe).
-/

/-- A stored payload: either raw text or a parsed JSON object
(a list of string fields, in insertion order), mirroring how
`currentResult.response` holds either a string or the parsed object. -/
inductive Payload where
  | text (s : List Char)
  | obj (fields : List (List Char × List Char))
deriving DecidableEq

/-- The Result Store snapshot, mirroring the fields of `currentResult`:
`{ response, isProcessing, lastModified, error }`. -/
structure Snapshot where
  response : Payload
  isProcessing : Bool
  lastModified : Option String
  error : Option String
deriving DecidableEq

/-- Startup value of `currentResult` (server.js lines 32-37). -/
def initialResult : Snapshot :=
  { response := Payload.text (("Waiting for prompt... Edit prompt.txt and save to see results here.").data)
    isProcessing := false
    lastModified := none
    error := none }

/- ### The single-flight coordinator (`processPromptFile`, lines 236-318)

`requestQueue` holds resolver handles for callers that arrived while a
generation was in flight; `isCurrentlyProcessing` is the in-flight flag.
We model the coordinator as a machine reacting to two events:

  * `arrive` — a caller invokes `processPromptFile`.  If idle the caller
    becomes the driver of a fresh pipeline run (lines 249 onward); if a run
    is in flight the caller's resolver is pushed onto `requestQueue`
    (lines 243-247).
  * `finish snap` — the in-flight run completes, having written the Result
    Store snapshot `snap`; the `finally` block (lines 309-317) clears the
    flag, releases the finished run's caller, and, if the queue is
    non-empty, shifts ONE waiter and starts a fresh run on its behalf.

Callers are identified by arrival number (`nextId` counts arrivals).
`active` counts in-flight pipeline runs (each contains at most one upstream
Generation Client call), `invocations` counts pipeline runs ever started,
`completed` counts runs that finished, and `served` records the order in
which callers' promises are resolved (a caller resolves in the same finish
step that wrote its run's snapshot to the store, matching `await
executeClaudeAPICall(prompt)` completing before the `finally` release). -/

inductive CoordEvent where
  | arrive
  | finish (snap : Snapshot)

structure CoordState where
  processing : Bool
  queue : List Nat
  driver : Nat
  nextId : Nat
  active : Nat
  invocations : Nat
  completed : Nat
  served : List Nat
  store : Snapshot
deriving DecidableEq

def coordInit : CoordState :=
  { processing := false, queue := [], driver := 0, nextId := 0, active := 0,
    invocations := 0, completed := 0, served := [], store := initialResult }

def coordStep (s : CoordState) : CoordEvent → CoordState
  | CoordEvent.arrive =>
      if s.processing then
        { s with queue := s.queue ++ [s.nextId], nextId := s.nextId + 1 }
      else
        { s with processing := true, driver := s.nextId, nextId := s.nextId + 1,
                 active := s.active + 1, invocations := s.invocations + 1 }
  | CoordEvent.finish snap =>
      if s.processing then
        match s.queue with
        | [] =>
            { s with processing := false, active := s.active - 1,
                     completed := s.completed + 1, served := s.served ++ [s.driver],
                     store := snap }
        | w :: rest =>
            { s with queue := rest, driver := w,
                     invocations := s.invocations + 1,
                     completed := s.completed + 1, served := s.served ++ [s.driver],
                     store := snap }
      else s

def coordRun (events : List CoordEvent) : CoordState :=
  events.foldl coordStep coordInit

def countArrivals (events : List CoordEvent) : Nat :=
  events.countP (fun e => match e with | CoordEvent.arrive => true | _ => false)

/-- Control component of the coordinator state: everything except the
stored snapshot.  Used to state that queue draining is independent of
whether a run succeeded or failed. -/
def coordControl (s : CoordState) :
    Bool × List Nat × Nat × Nat × Nat × Nat × Nat × List Nat :=
  (s.processing, s.queue, s.driver, s.nextId, s.active, s.invocations,
   s.completed, s.served)

/-- The coordinator invariant, proved inductive below:
the in-flight count matches the flag, every arrival is either queued,
driving, or already served (in arrival order), the queue is empty when
idle, and one caller is served per completed run. -/
def CoordInv (s : CoordState) : Prop :=
  s.active = (if s.processing then 1 else 0) ∧
  s.invocations + s.queue.length = s.nextId ∧
  s.served ++ (if s.processing then [s.driver] else []) ++ s.queue
    = List.range s.nextId ∧
  (s.processing = false → s.queue = []) ∧
  s.served.length = s.completed

theorem coordInv_init : CoordInv coordInit := by
  simp [CoordInv, coordInit]

theorem coordInv_step (s : CoordState) (e : CoordEvent) (h : CoordInv s) :
    CoordInv (coordStep s e) := by
  obtain ⟨h1, h2, h3, h4, h5⟩ := h
  cases e with
  | arrive =>
    cases hp : s.processing with
    | true =>
      simp only [hp, if_true] at h1 h3
      refine ⟨?_, ?_, ?_, ?_, ?_⟩
      · simp [coordStep, hp, h1]
      · simp only [coordStep, hp, if_true, List.length_append,
          List.length_singleton]
        omega
      · simp only [coordStep, hp, if_true]
        rw [List.range_succ, ← h3]
        simp
      · simp [coordStep, hp]
      · simp [coordStep, hp, h5]
    | false =>
      have hq : s.queue = [] := h4 hp
      simp only [hp, hq, if_false] at h3
      simp only [hq, List.length_nil] at h2
      simp only [hp, if_false] at h1
      refine ⟨?_, ?_, ?_, ?_, ?_⟩
      · simp [coordStep, hp, h1]
      · simp only [coordStep, hp, if_false, Bool.false_eq_true, hq,
          List.length_nil]
        omega
      · simp only [coordStep, hp, if_false, Bool.false_eq_true]
        simp only [hq]
        rw [List.range_succ, ← h3]
        simp
      · simp [coordStep, hp]
      · simp [coordStep, hp, h5]
  | finish snap =>
    cases hp : s.processing with
    | true =>
      simp only [hp, if_true] at h1 h3
      cases hq : s.queue with
      | nil =>
        simp only [hq, List.length_nil] at h2
        simp only [hq, List.append_nil] at h3
        refine ⟨?_, ?_, ?_, ?_, ?_⟩
        · simp [coordStep, hp, hq, h1]
        · simp only [coordStep, hp, if_true, hq]
          simp
          omega
        · simp only [coordStep, hp, if_true, hq]
          simpa using h3
        · simp [coordStep, hp, hq]
        · simp [coordStep, hp, hq, h5]
      | cons w rest =>
        simp only [hq, List.length_cons] at h2
        simp only [hq] at h3
        refine ⟨?_, ?_, ?_, ?_, ?_⟩
        · simp [coordStep, hp, hq, h1]
        · simp only [coordStep, hp, if_true, hq, List.length_cons]
          omega
        · simp only [coordStep, hp, if_true, hq]
          simpa using h3
        · simp [coordStep, hp, hq]
        · simp [coordStep, hp, hq, h5]
    | false =>
      have hq : s.queue = [] := h4 hp
      exact ⟨by simp [coordStep, hp, h1], by simp [coordStep, hp, h2],
        by simpa [coordStep, hp] using h3, by simp [coordStep, hp, hq],
        by simp [coordStep, hp, h5]⟩

theorem coordInv_run (events : List CoordEvent) : CoordInv (coordRun events) := by
  have : ∀ (es : List CoordEvent) (s : CoordState), CoordInv s →
      CoordInv (es.foldl coordStep s) := by
    intro es
    induction es with
    | nil => intro s hs; simpa using hs
    | cons e es ih =>
      intro s hs
      exact ih _ (coordInv_step s e hs)
  exact this events coordInit coordInv_init

theorem coordRun_nextId (events : List CoordEvent) :
    (coordRun events).nextId = countArrivals events := by
  have : ∀ (es : List CoordEvent) (s : CoordState),
      (es.foldl coordStep s).nextId = s.nextId + countArrivals es := by
    intro es
    induction es with
    | nil => intro s; simp [countArrivals]
    | cons e es ih =>
      intro s
      rw [List.foldl_cons, ih]
      cases e with
      | arrive =>
        by_cases hp : s.processing <;>
          simp [coordStep, hp, countArrivals, List.countP_cons] <;> omega
      | finish snap =>
        by_cases hp : s.processing
        · cases hq : s.queue <;>
            simp [coordStep, hp, hq, countArrivals, List.countP_cons]
        · simp [coordStep, hp, countArrivals, List.countP_cons]
  have h := this events coordInit
  simpa [coordRun, countArrivals, coordInit] using h

theorem append_eq_range_left {a b : List Nat} {n : Nat}
    (h : a ++ b = List.range n) : a = List.range a.length := by
  have hlen : a.length + b.length = n := by
    have := congrArg List.length h
    simpa using this
  have ht : (a ++ b).take a.length = a := List.take_left a b
  rw [h] at ht
  rw [List.take_range] at ht
  have hmin : min a.length n = a.length := by omega
  rw [hmin] at ht
  exact ht.symm

/-- Claim C1: starting idle, at most one pipeline run (hence at most one
Generation Client invocation, which lives inside a run) is active after any
sequence of arrival/completion events, and once the coordinator has drained
(no run in flight), the number of pipeline runs started equals the number of
trigger calls that arrived: callers arriving mid-flight are queued
(lines 243-247) and each release starts one fresh run of its own
(lines 313-316) — serialization, not deduplication. -/
theorem singleFlight_serialization (events : List CoordEvent) :
    (coordRun events).active ≤ 1 ∧
    ((coordRun events).processing = false →
      (coordRun events).invocations = countArrivals events) := by
  obtain ⟨h1, h2, _, h4, _⟩ := coordInv_run events
  constructor
  · rw [h1]
    split <;> omega
  · intro hidle
    have hq := h4 hidle
    rw [← coordRun_nextId events, ← h2, hq]
    simp

theorem singleFlight_serialization_witness :
    (coordRun [CoordEvent.arrive, CoordEvent.arrive,
      CoordEvent.finish initialResult, CoordEvent.finish initialResult,
      CoordEvent.arrive, CoordEvent.finish initialResult]).processing = false ∧
    (coordRun [CoordEvent.arrive, CoordEvent.arrive,
      CoordEvent.finish initialResult, CoordEvent.finish initialResult,
      CoordEvent.arrive, CoordEvent.finish initialResult]).invocations
      = countArrivals [CoordEvent.arrive, CoordEvent.arrive,
      CoordEvent.finish initialResult, CoordEvent.finish initialResult,
      CoordEvent.arrive, CoordEvent.finish initialResult] :=
  ⟨by decide,
   (singleFlight_serialization [CoordEvent.arrive, CoordEvent.arrive,
      CoordEvent.finish initialResult, CoordEvent.finish initialResult,
      CoordEvent.arrive, CoordEvent.finish initialResult]).2 (by decide)⟩

/-- Claim C2: after any event sequence, the list of released callers is
exactly `[0, 1, ..., completed-1]` — callers (numbered by arrival) are
released in strict FIFO arrival order, and the k-th caller is released
precisely in the step in which the k-th pipeline run (that caller's own
run) finishes, i.e. in the same `finally` step in which that run's Result
Store write `snap` lands (`processPromptFile().then(nextResolve)`,
lines 313-316, after `await executeClaudeAPICall` at line 299 has
completed its store write). -/
theorem fifoRelease (events : List CoordEvent) :
    (coordRun events).served = List.range (coordRun events).completed := by
  obtain ⟨_, _, h3, _, h5⟩ := coordInv_run events
  have := append_eq_range_left (by simpa using h3)
  rw [h5] at this
  exact this

/- ### Response normalizer (`executeClaudeAPICall`, lines 150-220)

The upstream text is strict-parsed as JSON (`JSON.parse`); on failure a
repair pass escapes literal control characters inside the `content` and
`shareableQuote` string values and the parse is retried; a parsed object
with truthy `name` and `content` is stored as a structured Story object,
anything else keeps the raw text verbatim.

`JSON.parse` is a platform builtin, so it is modelled here on the fragment
the Story payload lives in: a flat object whose values are strings.  The
model follows the JSON grammar exactly on that fragment: optional
whitespace between tokens, string escapes (including \uXXXX), and
rejection of unescaped control characters below U+0020 inside strings. -/

def isJsonWs (c : Char) : Bool :=
  match c with
  | ' ' => true
  | '\t' => true
  | '\n' => true
  | '\r' => true
  | _ => false

def skipWs (l : List Char) : List Char := l.dropWhile isJsonWs

def escTable : List (Char × Char) :=
  [('"', '"'), ('\\', '\\'), ('/', '/'), ('n', '\n'), ('t', '\t'),
   ('r', '\r'), ('b', Char.ofNat 8), ('f', Char.ofNat 12)]

def escDecode (c : Char) : Option Char :=
  (escTable.find? (fun p => p.1 == c)).map (fun p => p.2)

def isHexCh (c : Char) : Bool :=
  (48 ≤ c.toNat && c.toNat ≤ 57)
    || (97 ≤ c.toNat && c.toNat ≤ 102)
    || (65 ≤ c.toNat && c.toNat ≤ 70)

def hexVal (c : Char) : Nat :=
  if c.toNat ≤ 57 then c.toNat - 48
  else if 97 ≤ c.toNat then c.toNat - 87
  else c.toNat - 55

/-- Parse the body of a JSON string starting just after the opening quote;
returns the decoded value and the remaining input after the closing quote.
Mirrors `JSON.parse` string handling: escape sequences are decoded and an
unescaped control character (below U+0020) is a syntax error. -/
def parseStringBody : List Char → Option (List Char × List Char)
  | [] => none
  | c :: rest =>
    if c == '"' then some ([], rest)
    else if c == '\\' then
      match rest with
      | [] => none
      | e :: rest2 =>
        if e == 'u' then
          match rest2 with
          | a :: b :: c3 :: d :: rest3 =>
            if isHexCh a && isHexCh b && isHexCh c3 && isHexCh d then
              match parseStringBody rest3 with
              | some (v, r) =>
                  some (Char.ofNat
                    (((hexVal a * 16 + hexVal b) * 16 + hexVal c3) * 16
                      + hexVal d) :: v, r)
              | none => none
            else none
          | _ => none
        else
          match escDecode e with
          | some d =>
            match parseStringBody rest2 with
            | some (v, r) => some (d :: v, r)
            | none => none
          | none => none
    else if c.toNat < 32 then none
    else
      match parseStringBody rest with
      | some (v, r) => some (c :: v, r)
      | none => none

/-- Parse the members of a flat string-valued JSON object, starting at the
opening quote of the first key; `fuel` bounds the number of members (the
caller passes input length + 1, which always suffices since each member
consumes at least one character). -/
def parseMembersAux : Nat → List Char → Option (List (List Char × List Char) × List Char)
  | 0, _ => none
  | Nat.succ fuel, l =>
    match l with
    | [] => none
    | c0 :: rest =>
      if c0 = '"' then
        match parseStringBody rest with
        | some (key, r1) =>
          match skipWs r1 with
          | [] => none
          | c1 :: r2 =>
            if c1 = ':' then
              match skipWs r2 with
              | [] => none
              | c2 :: r3 =>
                if c2 = '"' then
                  match parseStringBody r3 with
                  | some (v, r4) =>
                    match skipWs r4 with
                    | [] => none
                    | c3 :: r5 =>
                      if c3 = ',' then
                        match parseMembersAux fuel (skipWs r5) with
                        | some (ms, r6) => some ((key, v) :: ms, r6)
                        | none => none
                      else if c3 = '}' then some ([(key, v)], r5)
                      else none
                  | none => none
                else none
            else none
        | none => none
      else none

/-- Model of `JSON.parse` on the flat string-valued object fragment:
returns the member list (in source order) on success, `none` on any
syntax error or on input outside the fragment. -/
def parseFlatObject (l : List Char) : Option (List (List Char × List Char)) :=
  match skipWs l with
  | [] => none
  | c0 :: r =>
    if c0 = '{' then
      match skipWs r with
      | [] => none
      | c1 :: r2 =>
        if c1 = '}' then (if skipWs r2 = [] then some [] else none)
        else
          match parseMembersAux (l.length + 1) (c1 :: r2) with
          | some (ms, rest) => if skipWs rest = [] then some ms else none
          | none => none
    else none

/-- JavaScript object-literal field access: later duplicate keys win. -/
def lookupLast (fields : List (List Char × List Char)) (k : List Char) :
    Option (List Char) :=
  fields.foldl (fun acc p => if p.1 = k then some p.2 else acc) none

/-- JavaScript truthiness of a string-valued field: present and non-empty
(`parsedJson.name && parsedJson.content`, line 195). -/
def truthyField (fields : List (List Char × List Char)) (k : List Char) : Bool :=
  match lookupLast fields k with
  | some v => !v.isEmpty
  | none => false

/- ### The regex repair pass (lines 166-192)

`cleaned = claudeResponse.trim()` followed by two global replaces, one per
field key `k`:

    cleaned.replace(/"k":\s*"((?:[^"\\]|\\.)*)"/gs, (m, body) =>
        `"k": "${body with \n, \r, \t escaped}"`)

modelled as a character-level scanner: at each position, if the literal
pattern `"k":` is present, followed by optional whitespace, a quote, a
well-formed string body (the `(?:[^"\\]|\\.)*` iteration, which is
deterministic: it consumes escape pairs and ordinary characters up to the
first unescaped quote), and the closing quote, the whole match is replaced
and scanning resumes after it; otherwise scanning advances one character.
-/

def jsWsCh : Char → Bool
  | ' ' => true
  | '\t' => true
  | '\n' => true
  | '\r' => true
  | '\x0b' => true
  | '\x0c' => true
  | _ => false

def skipJsWs (l : List Char) : List Char := l.dropWhile jsWsCh

/-- Strip the literal pattern `p` from the front of `l`. -/
def stripPref : List Char → List Char → Option (List Char)
  | [], l => some l
  | _ :: _, [] => none
  | p :: ps, c :: cs => if c = p then stripPref ps cs else none

/-- The literal text `"k":` of the field pattern. -/
def fieldPat (k : List Char) : List Char := '"' :: (k ++ ['"', ':'])

/-- Read a regex string body `(?:[^"\\]|\\.)*` up to the closing quote,
keeping the raw (still-escaped) characters; returns the body and the
input after the closing quote. -/
def readBody : List Char → Option (List Char × List Char)
  | [] => none
  | c :: rest =>
    if c == '"' then some ([], rest)
    else if c == '\\' then
      match rest with
      | [] => none
      | e :: rest2 =>
        match readBody rest2 with
        | some (b, r) => some ('\\' :: e :: b, r)
        | none => none
    else
      match readBody rest with
      | some (b, r) => some (c :: b, r)
      | none => none

/-- The replacement callback: escape literal newline, carriage-return and
tab characters inside the captured body (lines 176-179). -/
def escCtlChar (c : Char) : List Char :=
  if c = '\n' then ['\\', 'n']
  else if c = '\r' then ['\\', 'r']
  else if c = '\t' then ['\\', 't']
  else [c]

def escapeCtl3 : List Char → List Char
  | [] => []
  | c :: cs => escCtlChar c ++ escapeCtl3 cs

/-- Try to match the field pattern for key `k` at the head of `l`; on a
match, return the replacement text (`"k": "<escaped body>"`) and the rest
of the input after the match. -/
def tryRepair (k : List Char) (l : List Char) : Option (List Char × List Char) :=
  match stripPref (fieldPat k) l with
  | none => none
  | some r1 =>
    match skipJsWs r1 with
    | '"' :: r2 =>
      match readBody r2 with
      | some (body, rest) =>
          some (fieldPat k ++ (' ' :: '"' :: (escapeCtl3 body ++ ['"'])), rest)
      | none => none
    | _ => none

theorem stripPref_eq_some {p l r : List Char} :
    stripPref p l = some r ↔ l = p ++ r := by
  induction p generalizing l with
  | nil => simp [stripPref]
  | cons x p ih =>
    cases l with
    | nil => simp [stripPref]
    | cons c cs =>
      by_cases hc : c = x
      · subst hc
        simp [stripPref, ih]
      · simp [stripPref, hc, Ne.symm hc]

theorem stripPref_append (p r : List Char) : stripPref p (p ++ r) = some r :=
  stripPref_eq_some.mpr rfl

theorem dropWhile_length_le (p : Char → Bool) (l : List Char) :
    (l.dropWhile p).length ≤ l.length := by
  induction l with
  | nil => simp
  | cons c cs ih =>
    by_cases h : p c
    · rw [List.dropWhile_cons, if_pos h]
      simp only [List.length_cons]
      omega
    · rw [List.dropWhile_cons, if_neg h]

theorem readBody_length_aux :
    ∀ (n : Nat) (l b r : List Char), l.length ≤ n →
      readBody l = some (b, r) → r.length < l.length := by
  intro n
  induction n with
  | zero =>
    intro l b r hl h
    cases l with
    | nil => simp [readBody] at h
    | cons c rest => simp at hl
  | succ n ih =>
    intro l b r hl h
    cases l with
    | nil => simp [readBody] at h
    | cons c rest =>
      rw [readBody.eq_def] at h
      simp only at h
      split at h
      · cases h
        simp
      · split at h
        · split at h
          · exact absurd h (by simp)
          · rename_i e rest2
            split at h
            · rename_i v r2 heq
              cases h
              have hr := ih rest2 _ _ (by simp at hl ⊢; omega) heq
              simp only [List.length_cons]
              omega
            · exact absurd h (by simp)
        · split at h
          · rename_i v r2 heq
            cases h
            have hr := ih rest _ _ (by simp at hl ⊢; omega) heq
            simp only [List.length_cons]
            omega
          · exact absurd h (by simp)

theorem readBody_length {l b r : List Char} (h : readBody l = some (b, r)) :
    r.length < l.length :=
  readBody_length_aux l.length l b r (Nat.le_refl _) h

theorem tryRepair_length {k l e r : List Char}
    (h : tryRepair k l = some (e, r)) : r.length < l.length := by
  unfold tryRepair at h
  split at h
  · exact absurd h (by simp)
  · rename_i r1 hs
    have hl : l = fieldPat k ++ r1 := stripPref_eq_some.mp hs
    split at h
    · rename_i r2 hw
      split at h
      · rename_i body rest hb
        cases h
        have hb2 := readBody_length hb
        have hw2 : (skipJsWs r1).length ≤ r1.length :=
          dropWhile_length_le _ _
        rw [hw] at hw2
        simp only [List.length_cons] at hw2
        have hlen : l.length = (fieldPat k).length + r1.length := by
          rw [hl]; simp
        simp only [fieldPat, List.length_cons, List.length_append] at hlen
        omega
      · exact absurd h (by simp)
    · exact absurd h (by simp)

/-- The JavaScript global replace for one field key: scan left to right,
replacing each pattern match and resuming after the replacement. -/
def replaceField (k : List Char) : List Char → List Char
  | [] => []
  | c :: cs =>
    match h : tryRepair k (c :: cs) with
    | some (e, r) => e ++ replaceField k r
    | none => c :: replaceField k cs
termination_by l => l.length
decreasing_by
  · exact tryRepair_length h
  · simp

/- ### Character classes for the round-trip statements -/

/-- A character needing no escaping inside a JSON string: not a quote, not
a backslash, not a control character. -/
def safeChar (c : Char) : Bool :=
  !(c == '"') && !(c == '\\') && decide (32 ≤ c.toNat)

/-- A character allowed in the free-text fields of the round-trip claim:
safe, or one of the literal control characters the repair pass escapes. -/
def contentChar (c : Char) : Bool :=
  safeChar c || c == '\n' || c == '\r' || c == '\t'

theorem safeChar_spec {c : Char} (h : safeChar c = true) :
    c ≠ '"' ∧ c ≠ '\\' ∧ 32 ≤ c.toNat := by
  simpa [safeChar, and_assoc] using h

theorem contentChar_cases {c : Char} (h : contentChar c = true) :
    safeChar c = true ∨ c = '\n' ∨ c = '\r' ∨ c = '\t' := by
  simpa [contentChar, or_assoc] using h

theorem contentChar_not_quote {c : Char} (h : contentChar c = true) :
    c ≠ '"' ∧ c ≠ '\\' := by
  rcases contentChar_cases h with hs | rfl | rfl | rfl
  · exact ⟨(safeChar_spec hs).1, (safeChar_spec hs).2.1⟩
  · exact ⟨by decide, by decide⟩
  · exact ⟨by decide, by decide⟩
  · exact ⟨by decide, by decide⟩

theorem skipWs_cons_not (c : Char) (l : List Char) (h : isJsonWs c = false) :
    skipWs (c :: l) = c :: l := by
  simp [skipWs, List.dropWhile_cons, h]

theorem skipWs_cons_ws (c : Char) (l : List Char) (h : isJsonWs c = true) :
    skipWs (c :: l) = skipWs l := by
  simp [skipWs, List.dropWhile_cons, h]

theorem skipJsWs_cons_not (c : Char) (l : List Char) (h : jsWsCh c = false) :
    skipJsWs (c :: l) = c :: l := by
  simp [skipJsWs, List.dropWhile_cons, h]

theorem skipJsWs_cons_ws (c : Char) (l : List Char) (h : jsWsCh c = true) :
    skipJsWs (c :: l) = skipJsWs l := by
  simp [skipJsWs, List.dropWhile_cons, h]

/- ### parseStringBody lemmas -/

theorem psb_quote (rest : List Char) :
    parseStringBody ('"' :: rest) = some ([], rest) := by
  rw [parseStringBody.eq_def]
  simp

theorem psb_cons_safe {c : Char} (l : List Char) (hc : safeChar c = true) :
    parseStringBody (c :: l) =
      match parseStringBody l with
      | some (v, r) => some (c :: v, r)
      | none => none := by
  obtain ⟨h1, h2, h3⟩ := safeChar_spec hc
  rw [parseStringBody.eq_def]
  simp only []
  rw [if_neg (by simp [h1]), if_neg (by simp [h2]), if_neg (by omega)]

/-- Parsing a run of safe characters terminated by the closing quote yields
the run verbatim. -/
theorem psb_safe {v : List Char} (hv : ∀ c ∈ v, safeChar c = true)
    (rest : List Char) :
    parseStringBody (v ++ '"' :: rest) = some (v, rest) := by
  induction v with
  | nil => simpa using psb_quote rest
  | cons c cs ih =>
    have hc : safeChar c = true := hv c (by simp)
    have ihh := ih (fun d hd => hv d (by simp [hd]))
    rw [List.cons_append, psb_cons_safe _ hc, ihh]

theorem escCtlChar_safe {c : Char} (hs : safeChar c = true) :
    escCtlChar c = [c] := by
  obtain ⟨_, _, h3⟩ := safeChar_spec hs
  have h1 : c ≠ '\n' := by rintro rfl; revert h3; decide
  have h2 : c ≠ '\r' := by rintro rfl; revert h3; decide
  have h4 : c ≠ '\t' := by rintro rfl; revert h3; decide
  simp [escCtlChar, h1, h2, h4]

/-- Decoding a single escape after a backslash (for a non-\u escape). -/
theorem psb_cons_escape (e d : Char) (l : List Char) (he : e ≠ 'u')
    (hd : escDecode e = some d) :
    parseStringBody ('\\' :: e :: l) =
      match parseStringBody l with
      | some (v, r) => some (d :: v, r)
      | none => none := by
  rw [parseStringBody.eq_def]
  simp only []
  rw [if_neg (by decide), if_pos (by decide)]
  simp only [show (e == 'u') = false by simp [he], if_false, Bool.false_eq_true]
  rw [hd]

/-- Parsing the escaped form of a content run decodes it back verbatim:
the round-trip core. -/
theorem psb_escaped {v : List Char} (hv : ∀ c ∈ v, contentChar c = true)
    (rest : List Char) :
    parseStringBody (escapeCtl3 v ++ '"' :: rest) = some (v, rest) := by
  induction v with
  | nil => simpa [escapeCtl3] using psb_quote rest
  | cons c cs ih =>
    have hc : contentChar c = true := hv c (by simp)
    have ihh := ih (fun d hd => hv d (by simp [hd]))
    rcases contentChar_cases hc with hs | rfl | rfl | rfl
    · have hesc : escapeCtl3 (c :: cs) = c :: escapeCtl3 cs := by
        simp [escapeCtl3, escCtlChar_safe hs]
      rw [hesc, List.cons_append, psb_cons_safe _ hs, ihh]
    · have hesc : escapeCtl3 ('\n' :: cs) = '\\' :: 'n' :: escapeCtl3 cs := by
        simp [escapeCtl3, escCtlChar]
      rw [hesc, List.cons_append, List.cons_append,
        psb_cons_escape 'n' '\n' _ (by decide) (by decide), ihh]
    · have hesc : escapeCtl3 ('\r' :: cs) = '\\' :: 'r' :: escapeCtl3 cs := by
        simp [escapeCtl3, escCtlChar]
      rw [hesc, List.cons_append, List.cons_append,
        psb_cons_escape 'r' '\r' _ (by decide) (by decide), ihh]
    · have hesc : escapeCtl3 ('\t' :: cs) = '\\' :: 't' :: escapeCtl3 cs := by
        simp [escapeCtl3, escCtlChar]
      rw [hesc, List.cons_append, List.cons_append,
        psb_cons_escape 't' '\t' _ (by decide) (by decide), ihh]

/-- A run containing a literal newline (with all characters drawn from the
content class) makes the strict string parse fail: the first control
character in the run is rejected. -/
theorem psb_ctrl_fail {v : List Char} (hv : ∀ c ∈ v, contentChar c = true)
    (hn : '\n' ∈ v) (rest : List Char) :
    parseStringBody (v ++ rest) = none := by
  induction v with
  | nil => simp at hn
  | cons c cs ih =>
    have hc : contentChar c = true := hv c (by simp)
    rcases contentChar_cases hc with hs | rfl | rfl | rfl
    · have hcn : '\n' ∈ cs := by
        rcases List.mem_cons.mp hn with h | h
        · exact absurd h.symm (by
            obtain ⟨_, _, h3⟩ := safeChar_spec hs
            rintro rfl; revert h3; decide)
        · exact h
      have ihh := ih (fun d hd => hv d (by simp [hd])) hcn
      rw [List.cons_append, psb_cons_safe _ hs, ihh]
    · rw [List.cons_append, parseStringBody.eq_def]
      simp
    · rw [List.cons_append, parseStringBody.eq_def]
      simp
    · rw [List.cons_append, parseStringBody.eq_def]
      simp

/- ### The canonical Story JSON shape

`mkStoryRaw n t c q` is the canonically formatted serialization
`{"name": "<n>", "title": "<t>", "content": "<c>", "shareableQuote": "<q>"}`
with the field values spliced in verbatim (so a value containing a literal
newline yields a string that is well-formed Story JSON except for that
unescaped control character). -/

def nameK : List Char := 'n' :: 'a' :: 'm' :: 'e' :: []
def titleK : List Char := 't' :: 'i' :: 't' :: 'l' :: 'e' :: []
def contentK : List Char :=
  'c' :: 'o' :: 'n' :: 't' :: 'e' :: 'n' :: 't' :: []
def quoteK : List Char :=
  's' :: 'h' :: 'a' :: 'r' :: 'e' :: 'a' :: 'b' :: 'l' :: 'e' ::
  'Q' :: 'u' :: 'o' :: 't' :: 'e' :: []

/-- One serialized member `"k": "<b>"` (without trailing separator). -/
def fieldHead (k b : List Char) : List Char :=
  '"' :: (k ++ '"' :: ':' :: ' ' :: '"' :: (b ++ ['"']))

def mkField (k b rest : List Char) : List Char := fieldHead k b ++ rest

def mkStoryRaw (n t c q : List Char) : List Char :=
  '{' :: mkField nameK n (',' :: ' ' :: mkField titleK t
    (',' :: ' ' :: mkField contentK c (',' :: ' ' :: mkField quoteK q ['}'])))

theorem mkField_eq (k b rest : List Char) :
    mkField k b rest =
      '"' :: (k ++ '"' :: ':' :: ' ' :: '"' :: (b ++ '"' :: rest)) := by
  simp [mkField, fieldHead]

/-- Unfolding one member parse over the canonical member shape: the key and
the separator parse deterministically, leaving the value body parse and the
continuation. -/
theorem pma_field (fuel : Nat) (k b rest : List Char)
    (hk : ∀ x ∈ k, safeChar x = true) :
    parseMembersAux (fuel + 1) (mkField k b rest) =
      match parseStringBody (b ++ '"' :: rest) with
      | some (v, r4) =>
        match skipWs r4 with
        | [] => none
        | c3 :: r5 =>
          if c3 = ',' then
            match parseMembersAux fuel (skipWs r5) with
            | some (ms, r6) => some ((k, v) :: ms, r6)
            | none => none
          else if c3 = '}' then some ([(k, v)], r5)
          else none
      | none => none := by
  rw [mkField_eq, parseMembersAux.eq_def]
  simp only []
  rw [if_true]
  rw [psb_safe hk]
  simp only []
  rw [skipWs_cons_not ':' _ (by decide)]
  simp only []
  rw [if_true]
  rw [skipWs_cons_ws ' ' _ (by decide), skipWs_cons_not '"' _ (by decide)]
  simp only []
  rw [if_true]

/-- The members of the canonical Story serialization parse to the four
fields, given that each free-text body parses back to its value. -/
theorem pma_story (fuel : Nat) (hfuel : 3 ≤ fuel)
    (n t cb cv qb qv : List Char)
    (hn : ∀ x ∈ n, safeChar x = true) (ht : ∀ x ∈ t, safeChar x = true)
    (hcb : ∀ rest, parseStringBody (cb ++ '"' :: rest) = some (cv, rest))
    (hqb : ∀ rest, parseStringBody (qb ++ '"' :: rest) = some (qv, rest)) :
    parseMembersAux (fuel + 1)
      (mkField nameK n (',' :: ' ' :: mkField titleK t
        (',' :: ' ' :: mkField contentK cb
          (',' :: ' ' :: mkField quoteK qb ['}']))))
      = some ([(nameK, n), (titleK, t), (contentK, cv), (quoteK, qv)], []) := by
  obtain ⟨f, rfl⟩ : ∃ f, fuel = f + 3 := ⟨fuel - 3, by omega⟩
  rw [pma_field _ _ _ _ (by decide)]
  rw [psb_safe hn]
  simp only []
  rw [skipWs_cons_not ',' _ (by decide)]
  simp only []
  rw [if_true]
  rw [skipWs_cons_ws ' ' _ (by decide)]
  rw [mkField_eq titleK]
  rw [skipWs_cons_not '"' _ (by decide)]
  rw [← mkField_eq titleK]
  rw [show f + 3 = (f + 2) + 1 from by omega]
  rw [pma_field _ _ _ _ (by decide)]
  rw [psb_safe ht]
  simp only []
  rw [skipWs_cons_not ',' _ (by decide)]
  simp only []
  rw [if_true]
  rw [skipWs_cons_ws ' ' _ (by decide)]
  rw [mkField_eq contentK]
  rw [skipWs_cons_not '"' _ (by decide)]
  rw [← mkField_eq contentK]
  rw [show f + 2 = (f + 1) + 1 from by omega]
  rw [pma_field _ _ _ _ (by decide)]
  rw [hcb]
  simp only []
  rw [skipWs_cons_not ',' _ (by decide)]
  simp only []
  rw [if_true]
  rw [skipWs_cons_ws ' ' _ (by decide)]
  rw [mkField_eq quoteK]
  rw [skipWs_cons_not '"' _ (by decide)]
  rw [← mkField_eq quoteK]
  rw [pma_field _ _ _ _ (by decide)]
  rw [hqb]
  simp only []
  rw [skipWs_cons_not '}' _ (by decide)]
  simp only []
  rw [if_neg (by decide), if_true]

/-- If the content body rejects (it contains an unescaped control
character), the member parse rejects. -/
theorem pma_story_fail (fuel : Nat) (hfuel : 2 ≤ fuel)
    (n t cb qb : List Char)
    (hn : ∀ x ∈ n, safeChar x = true) (ht : ∀ x ∈ t, safeChar x = true)
    (hcfail : ∀ rest, parseStringBody (cb ++ rest) = none) :
    parseMembersAux (fuel + 1)
      (mkField nameK n (',' :: ' ' :: mkField titleK t
        (',' :: ' ' :: mkField contentK cb
          (',' :: ' ' :: mkField quoteK qb ['}']))))
      = none := by
  obtain ⟨f, rfl⟩ : ∃ f, fuel = f + 2 := ⟨fuel - 2, by omega⟩
  rw [pma_field _ _ _ _ (by decide)]
  rw [psb_safe hn]
  simp only []
  rw [skipWs_cons_not ',' _ (by decide)]
  simp only []
  rw [if_true]
  rw [skipWs_cons_ws ' ' _ (by decide)]
  rw [mkField_eq titleK]
  rw [skipWs_cons_not '"' _ (by decide)]
  rw [← mkField_eq titleK]
  rw [show f + 2 = (f + 1) + 1 from by omega]
  rw [pma_field _ _ _ _ (by decide)]
  rw [psb_safe ht]
  simp only []
  rw [skipWs_cons_not ',' _ (by decide)]
  simp only []
  rw [if_true]
  rw [skipWs_cons_ws ' ' _ (by decide)]
  rw [mkField_eq contentK]
  rw [skipWs_cons_not '"' _ (by decide)]
  rw [← mkField_eq contentK]
  rw [pma_field _ _ _ _ (by decide)]
  rw [hcfail]

theorem mkStoryRaw_length (n t cb qb : List Char) :
    3 ≤ (mkStoryRaw n t cb qb).length := by
  simp [mkStoryRaw, mkField, fieldHead]
  omega

/-- Strict parse of the canonical serialization succeeds when each
free-text body parses back to its value. -/
theorem parseFlatObject_mkStory (n t cb cv qb qv : List Char)
    (hn : ∀ x ∈ n, safeChar x = true) (ht : ∀ x ∈ t, safeChar x = true)
    (hcb : ∀ rest, parseStringBody (cb ++ '"' :: rest) = some (cv, rest))
    (hqb : ∀ rest, parseStringBody (qb ++ '"' :: rest) = some (qv, rest)) :
    parseFlatObject (mkStoryRaw n t cb qb)
      = some [(nameK, n), (titleK, t), (contentK, cv), (quoteK, qv)] := by
  rw [parseFlatObject.eq_def]
  rw [show mkStoryRaw n t cb qb = '{' :: mkField nameK n (',' :: ' ' ::
    mkField titleK t (',' :: ' ' :: mkField contentK cb
      (',' :: ' ' :: mkField quoteK qb ['}']))) from rfl]
  rw [skipWs_cons_not '{' _ (by decide)]
  simp only []
  rw [if_true]
  rw [mkField_eq nameK]
  rw [skipWs_cons_not '"' _ (by decide)]
  simp only []
  rw [if_neg (by decide)]
  rw [← mkField_eq nameK]
  rw [pma_story _ (by simp [mkField, fieldHead]; omega)
    n t cb cv qb qv hn ht hcb hqb]
  simp [skipWs]

/-- Strict parse of the canonical serialization rejects when the content
body rejects (e.g. a literal newline inside the value). -/
theorem parseFlatObject_mkStory_fail (n t cb qb : List Char)
    (hn : ∀ x ∈ n, safeChar x = true) (ht : ∀ x ∈ t, safeChar x = true)
    (hcfail : ∀ rest, parseStringBody (cb ++ rest) = none) :
    parseFlatObject (mkStoryRaw n t cb qb) = none := by
  rw [parseFlatObject.eq_def]
  rw [show mkStoryRaw n t cb qb = '{' :: mkField nameK n (',' :: ' ' ::
    mkField titleK t (',' :: ' ' :: mkField contentK cb
      (',' :: ' ' :: mkField quoteK qb ['}']))) from rfl]
  rw [skipWs_cons_not '{' _ (by decide)]
  simp only []
  rw [if_true]
  rw [mkField_eq nameK]
  rw [skipWs_cons_not '"' _ (by decide)]
  simp only []
  rw [if_neg (by decide)]
  rw [← mkField_eq nameK]
  rw [pma_story_fail _ (by simp [mkField, fieldHead]; try omega)
    n t cb qb hn ht hcfail]

/- ### Equation lemmas and scan lemmas for the repair replace -/

theorem replaceField_nil (k : List Char) : replaceField k [] = [] := by
  rw [replaceField]

theorem replaceField_cons_none {k : List Char} {c : Char} {cs : List Char}
    (h : tryRepair k (c :: cs) = none) :
    replaceField k (c :: cs) = c :: replaceField k cs := by
  rw [replaceField]
  split
  · rename_i e r heq
    rw [h] at heq
    cases heq
  · rfl

theorem replaceField_cons_some {k : List Char} {c : Char} {cs e r : List Char}
    (h : tryRepair k (c :: cs) = some (e, r)) :
    replaceField k (c :: cs) = e ++ replaceField k r := by
  rw [replaceField]
  split
  · rename_i e2 r2 heq
    rw [h] at heq
    cases heq
    rfl
  · rename_i heq
    rw [h] at heq
    cases heq

theorem stripPref_cons_ne {p c : Char} {ps cs : List Char} (h : c ≠ p) :
    stripPref (p :: ps) (c :: cs) = none := by
  simp [stripPref, h]

/-- The field pattern starts with a quote, so no match can start at a
non-quote character. -/
theorem tryRepair_not_quote {k : List Char} {c : Char} (cs : List Char)
    (h : c ≠ '"') : tryRepair k (c :: cs) = none := by
  unfold tryRepair
  rw [show fieldPat k = '"' :: (k ++ ['"', ':']) from rfl]
  rw [stripPref_cons_ne h]

/-- Scanning passes unchanged over any quote-free run. -/
theorem replaceField_skip {k v : List Char}
    (hv : ∀ x ∈ v, x ≠ '"') (rest : List Char) :
    replaceField k (v ++ rest) = v ++ replaceField k rest := by
  induction v with
  | nil => simp
  | cons c cs ih =>
    have hc : c ≠ '"' := hv c (by simp)
    rw [List.cons_append,
      replaceField_cons_none (tryRepair_not_quote _ hc),
      ih (fun x hx => hv x (by simp [hx]))]
    rfl

/-- Two quote-free runs followed by a quote and one more character align:
the runs, the following characters, and the tails are equal. -/
theorem quote_split {v w : List Char} {x y : Char} {a b : List Char}
    (hv : ∀ u ∈ v, u ≠ '"') (hw : ∀ u ∈ w, u ≠ '"')
    (h : v ++ '"' :: x :: a = w ++ '"' :: y :: b) :
    v = w ∧ x = y ∧ a = b := by
  induction v generalizing w with
  | nil =>
    cases w with
    | nil =>
      simp at h
      exact ⟨rfl, h.1, h.2⟩
    | cons d w2 =>
      simp at h
      exact absurd h.1.symm (hw d (by simp))
  | cons c v2 ih =>
    cases w with
    | nil =>
      simp at h
      exact absurd h.1 (hv c (by simp))
    | cons d w2 =>
      simp only [List.cons_append, List.cons.injEq] at h
      obtain ⟨rfl, h2⟩ := h
      have := ih (fun u hu => hv u (by simp [hu]))
        (fun u hu => hw u (by simp [hu])) h2
      exact ⟨by rw [this.1], this.2.1, this.2.2⟩

/-- No match can start at the opening quote of a value whose closing quote
is not followed by a colon (the pattern demands `"k":`). -/
theorem tryRepair_value_quote {k v : List Char} {d : Char} (rest : List Char)
    (hk : ∀ u ∈ k, u ≠ '"') (hv : ∀ u ∈ v, u ≠ '"') (hd : d ≠ ':') :
    tryRepair k ('"' :: (v ++ '"' :: d :: rest)) = none := by
  unfold tryRepair
  split
  · rfl
  · rename_i r1 hs
    exfalso
    have heq := stripPref_eq_some.mp hs
    rw [show fieldPat k ++ r1 = '"' :: (k ++ '"' :: ':' :: r1) from by
      simp [fieldPat]] at heq
    simp only [List.cons.injEq, true_and] at heq
    exact hd (quote_split hv hk heq).2.1

/-- A quote-free, backslash-free run reads back verbatim as a regex string
body. -/
theorem readBody_safe {v : List Char}
    (hv : ∀ x ∈ v, x ≠ '"' ∧ x ≠ '\\') (rest : List Char) :
    readBody (v ++ '"' :: rest) = some (v, rest) := by
  induction v with
  | nil =>
    rw [List.nil_append, readBody.eq_def]
    simp
  | cons c cs ih =>
    obtain ⟨h1, h2⟩ := hv c (by simp)
    rw [List.cons_append, readBody.eq_def]
    simp only []
    rw [if_neg (by simp [h1]), if_neg (by simp [h2])]
    rw [ih (fun x hx => hv x (by simp [hx]))]

/-- The full pattern match at the target field: consume `"k": "<body>"`,
emit the replacement with the body's control characters escaped. -/
theorem tryRepair_hit (k body rest : List Char)
    (hb : readBody (body ++ '"' :: rest) = some (body, rest)) :
    tryRepair k ('"' :: ((k ++ ['"', ':']) ++ (' ' :: '"' :: (body ++ '"' :: rest))))
      = some (fieldPat k ++ (' ' :: '"' :: (escapeCtl3 body ++ ['"'])), rest) := by
  rw [show ('"' :: ((k ++ ['"', ':']) ++ (' ' :: '"' :: (body ++ '"' :: rest))))
      = fieldPat k ++ (' ' :: '"' :: (body ++ '"' :: rest)) from by simp [fieldPat]]
  unfold tryRepair
  rw [stripPref_append]
  simp only []
  rw [skipJsWs_cons_ws ' ' _ (by decide), skipJsWs_cons_not '"' _ (by decide)]
  simp only []
  rw [hb]

theorem escapeCtl3_append (a b : List Char) :
    escapeCtl3 (a ++ b) = escapeCtl3 a ++ escapeCtl3 b := by
  induction a with
  | nil => simp [escapeCtl3]
  | cons c cs ih => simp [escapeCtl3, ih]

/-- The escaped form of a content run contains no quote (so later scans
pass over it unchanged). -/
theorem escapeCtl3_no_quote {v : List Char}
    (hv : ∀ x ∈ v, contentChar x = true) :
    ∀ x ∈ escapeCtl3 v, x ≠ '"' := by
  induction v with
  | nil => simp [escapeCtl3]
  | cons c cs ih =>
    intro x hx
    rw [show escapeCtl3 (c :: cs) = escCtlChar c ++ escapeCtl3 cs from rfl,
      List.mem_append] at hx
    rcases hx with hx | hx
    · rcases contentChar_cases (hv c (by simp)) with hs | rfl | rfl | rfl
      · rw [escCtlChar_safe hs] at hx
        simp at hx
        subst hx
        exact (safeChar_spec hs).1
      all_goals
        simp [escCtlChar] at hx
        rcases hx with rfl | rfl <;> decide
    · exact ih (fun y hy => hv y (by simp [hy])) x hx

/-- The escaped form of a safe run is the run itself. -/
theorem escapeCtl3_safe_id {v : List Char}
    (hv : ∀ x ∈ v, safeChar x = true) : escapeCtl3 v = v := by
  induction v with
  | nil => rfl
  | cons c cs ih =>
    rw [show escapeCtl3 (c :: cs) = escCtlChar c ++ escapeCtl3 cs from rfl,
      escCtlChar_safe (hv c (by simp)), ih (fun x hx => hv x (by simp [hx]))]
    rfl

/-- No match can start at the opening quote of a key different from the
target key. -/
theorem tryRepair_other_key {k fk : List Char} (tail : List Char)
    (hk : ∀ u ∈ k, u ≠ '"') (hfk : ∀ u ∈ fk, u ≠ '"') (hne : fk ≠ k) :
    tryRepair k ('"' :: (fk ++ '"' :: ':' :: tail)) = none := by
  unfold tryRepair
  split
  · rfl
  · rename_i r1 hs
    exfalso
    have heq := stripPref_eq_some.mp hs
    rw [show fieldPat k ++ r1 = '"' :: (k ++ '"' :: ':' :: r1) from by
      simp [fieldPat]] at heq
    simp only [List.cons.injEq, true_and] at heq
    exact hne (quote_split hfk hk heq).1

/-- No match can start at the closing quote of a key (the following text
is `: "` then the value). -/
theorem tryRepair_key_close {k : List Char} (b tail : List Char)
    (hk : ∀ u ∈ k, u ≠ '"') (hkc : k ≠ ':' :: ' ' :: []) :
    tryRepair k ('"' :: ':' :: ' ' :: '"' :: (b ++ '"' :: tail)) = none := by
  unfold tryRepair
  split
  · rfl
  · rename_i r1 hs
    exfalso
    have heq := stripPref_eq_some.mp hs
    rw [show fieldPat k ++ r1 = '"' :: (k ++ '"' :: ':' :: r1) from by
      simp [fieldPat]] at heq
    simp only [List.cons.injEq, true_and] at heq
    cases hz : b ++ '"' :: tail with
    | nil => exact absurd hz (by simp)
    | cons z zs =>
      rw [hz] at heq
      have heq2 : (':' :: ' ' :: []) ++ '"' :: z :: zs
          = k ++ '"' :: ':' :: r1 := by simpa using heq
      exact hkc (quote_split (by decide) hk heq2).1.symm

/-- No match can start at the closing quote of a value when the target
pattern does not continue there. -/
theorem tryRepair_close {k : List Char} {d : Char} {rest : List Char}
    (hclose : stripPref (k ++ ['"', ':']) (d :: rest) = none) :
    tryRepair k ('"' :: d :: rest) = none := by
  unfold tryRepair
  rw [show fieldPat k = '"' :: (k ++ ['"', ':']) from rfl]
  simp only [stripPref]
  rw [if_true, hclose]

/-- Scanning for key `k` passes unchanged over a serialized member with a
different key `fk`: no match can start at any position inside it. -/
theorem replaceField_skip_field {k fk b : List Char} {d : Char}
    (rest : List Char)
    (hk : ∀ u ∈ k, u ≠ '"') (hfk : ∀ u ∈ fk, u ≠ '"')
    (hb : ∀ u ∈ b, u ≠ '"') (hne : fk ≠ k)
    (hkc : k ≠ ':' :: ' ' :: []) (hd : d ≠ ':')
    (hclose : stripPref (k ++ ['"', ':']) (d :: rest) = none) :
    replaceField k (mkField fk b (d :: rest))
      = fieldHead fk b ++ replaceField k (d :: rest) := by
  rw [mkField_eq]
  rw [replaceField_cons_none (tryRepair_other_key _ hk hfk hne)]
  rw [replaceField_skip hfk]
  rw [replaceField_cons_none (tryRepair_key_close _ _ hk hkc)]
  rw [replaceField_cons_none (tryRepair_not_quote _ (by decide))]
  rw [replaceField_cons_none (tryRepair_not_quote _ (by decide))]
  rw [replaceField_cons_none (tryRepair_value_quote rest hk hb hd)]
  rw [replaceField_skip hb]
  rw [replaceField_cons_none (tryRepair_close hclose)]
  simp [fieldHead]

/-- Scanning for key `k` at the member for `k` itself performs the
replacement: the body's control characters are escaped in place. -/
theorem replaceField_hit_field {k b : List Char} (rest : List Char)
    (hb : ∀ u ∈ b, u ≠ '"' ∧ u ≠ '\\') :
    replaceField k (mkField k b rest)
      = fieldHead k (escapeCtl3 b) ++ replaceField k rest := by
  rw [show mkField k b rest
      = '"' :: ((k ++ ['"', ':']) ++ (' ' :: '"' :: (b ++ '"' :: rest))) from by
    simp [mkField, fieldHead]]
  rw [replaceField_cons_some (tryRepair_hit k b rest (readBody_safe hb rest))]
  simp [fieldPat, fieldHead]

/-- The `content` replace pass over the canonical serialization rewrites
exactly the content body, escaping its control characters. -/
theorem replaceField_content (n t c q : List Char)
    (hn : ∀ u ∈ n, u ≠ '"') (ht : ∀ u ∈ t, u ≠ '"')
    (hc : ∀ u ∈ c, u ≠ '"' ∧ u ≠ '\\') (hq : ∀ u ∈ q, u ≠ '"') :
    replaceField contentK (mkStoryRaw n t c q)
      = mkStoryRaw n t (escapeCtl3 c) q := by
  rw [show mkStoryRaw n t c q = '{' :: mkField nameK n (',' :: ' ' ::
    mkField titleK t (',' :: ' ' :: mkField contentK c
      (',' :: ' ' :: mkField quoteK q ['}']))) from rfl]
  rw [replaceField_cons_none (tryRepair_not_quote _ (by decide))]
  rw [replaceField_skip_field _ (by decide) (by decide) hn (by decide)
    (by decide) (by decide)
    (by rw [show contentK ++ ['"', ':']
          = 'c' :: ('o' :: 'n' :: 't' :: 'e' :: 'n' :: 't' :: '"' :: ':' :: [])
          from rfl]
        exact stripPref_cons_ne (by decide))]
  rw [replaceField_cons_none (tryRepair_not_quote _ (by decide))]
  rw [replaceField_cons_none (tryRepair_not_quote _ (by decide))]
  rw [replaceField_skip_field _ (by decide) (by decide) ht (by decide)
    (by decide) (by decide)
    (by rw [show contentK ++ ['"', ':']
          = 'c' :: ('o' :: 'n' :: 't' :: 'e' :: 'n' :: 't' :: '"' :: ':' :: [])
          from rfl]
        exact stripPref_cons_ne (by decide))]
  rw [replaceField_cons_none (tryRepair_not_quote _ (by decide))]
  rw [replaceField_cons_none (tryRepair_not_quote _ (by decide))]
  rw [replaceField_hit_field _ hc]
  rw [replaceField_cons_none (tryRepair_not_quote _ (by decide))]
  rw [replaceField_cons_none (tryRepair_not_quote _ (by decide))]
  rw [replaceField_skip_field _ (by decide) (by decide) hq (by decide)
    (by decide) (by decide)
    (by rw [show contentK ++ ['"', ':']
          = 'c' :: ('o' :: 'n' :: 't' :: 'e' :: 'n' :: 't' :: '"' :: ':' :: [])
          from rfl]
        exact stripPref_cons_ne (by decide))]
  rw [replaceField_cons_none (tryRepair_not_quote _ (by decide))]
  rw [replaceField_nil]
  simp [mkStoryRaw, mkField, fieldHead]

/-- The `shareableQuote` replace pass over the canonical serialization
rewrites exactly the quote body, escaping its control characters. -/
theorem replaceField_quote (n t cb q : List Char)
    (hn : ∀ u ∈ n, u ≠ '"') (ht : ∀ u ∈ t, u ≠ '"')
    (hcb : ∀ u ∈ cb, u ≠ '"') (hq : ∀ u ∈ q, u ≠ '"' ∧ u ≠ '\\') :
    replaceField quoteK (mkStoryRaw n t cb q)
      = mkStoryRaw n t cb (escapeCtl3 q) := by
  rw [show mkStoryRaw n t cb q = '{' :: mkField nameK n (',' :: ' ' ::
    mkField titleK t (',' :: ' ' :: mkField contentK cb
      (',' :: ' ' :: mkField quoteK q ['}']))) from rfl]
  rw [replaceField_cons_none (tryRepair_not_quote _ (by decide))]
  rw [replaceField_skip_field _ (by decide) (by decide) hn (by decide)
    (by decide) (by decide)
    (by rw [show quoteK ++ ['"', ':']
          = 's' :: ('h' :: 'a' :: 'r' :: 'e' :: 'a' :: 'b' :: 'l' :: 'e' ::
            'Q' :: 'u' :: 'o' :: 't' :: 'e' :: '"' :: ':' :: []) from rfl]
        exact stripPref_cons_ne (by decide))]
  rw [replaceField_cons_none (tryRepair_not_quote _ (by decide))]
  rw [replaceField_cons_none (tryRepair_not_quote _ (by decide))]
  rw [replaceField_skip_field _ (by decide) (by decide) ht (by decide)
    (by decide) (by decide)
    (by rw [show quoteK ++ ['"', ':']
          = 's' :: ('h' :: 'a' :: 'r' :: 'e' :: 'a' :: 'b' :: 'l' :: 'e' ::
            'Q' :: 'u' :: 'o' :: 't' :: 'e' :: '"' :: ':' :: []) from rfl]
        exact stripPref_cons_ne (by decide))]
  rw [replaceField_cons_none (tryRepair_not_quote _ (by decide))]
  rw [replaceField_cons_none (tryRepair_not_quote _ (by decide))]
  rw [replaceField_skip_field _ (by decide) (by decide) hcb (by decide)
    (by decide) (by decide)
    (by rw [show quoteK ++ ['"', ':']
          = 's' :: ('h' :: 'a' :: 'r' :: 'e' :: 'a' :: 'b' :: 'l' :: 'e' ::
            'Q' :: 'u' :: 'o' :: 't' :: 'e' :: '"' :: ':' :: []) from rfl]
        exact stripPref_cons_ne (by decide))]
  rw [replaceField_cons_none (tryRepair_not_quote _ (by decide))]
  rw [replaceField_cons_none (tryRepair_not_quote _ (by decide))]
  rw [replaceField_hit_field _ hq]
  rw [replaceField_cons_none (tryRepair_not_quote _ (by decide))]
  rw [replaceField_nil]
  simp [mkStoryRaw, mkField, fieldHead]

/-- JavaScript `String.prototype.trim`: strip leading and trailing
whitespace (line 170, `claudeResponse.trim()`). -/
def trimChars (l : List Char) : List Char :=
  ((l.dropWhile jsWsCh).reverse.dropWhile jsWsCh).reverse

theorem trimChars_eq_of_ends {l : List Char}
    (h1 : l.dropWhile jsWsCh = l) (h2 : l.reverse.dropWhile jsWsCh = l.reverse) :
    trimChars l = l := by
  rw [trimChars, h1, h2, List.reverse_reverse]

theorem trimChars_mkStory (n t c q : List Char) :
    trimChars (mkStoryRaw n t c q) = mkStoryRaw n t c q := by
  apply trimChars_eq_of_ends
  · rw [show mkStoryRaw n t c q = '{' :: mkField nameK n (',' :: ' ' ::
      mkField titleK t (',' :: ' ' :: mkField contentK c
        (',' :: ' ' :: mkField quoteK q ['}']))) from rfl]
    rw [List.dropWhile_cons, if_neg (by decide)]
  · have hsplit : mkStoryRaw n t c q = ('{' :: (fieldHead nameK n ++ ',' :: ' ' ::
      (fieldHead titleK t ++ ',' :: ' ' :: (fieldHead contentK c ++ ',' :: ' ' ::
        fieldHead quoteK q)))) ++ ['}'] := by
      simp [mkStoryRaw, mkField]
    rw [hsplit, List.reverse_append]
    rw [show (['}'] : List Char).reverse = '}' :: [] from rfl, List.cons_append,
      List.dropWhile_cons, if_neg (by decide)]

/-- Helper for the Story classification test (line 195):
`parsedJson && parsedJson.name && parsedJson.content`. -/
def ifStory (obj : List (List Char × List Char)) (text : List Char) : Payload :=
  if truthyField obj nameK && truthyField obj contentK then Payload.obj obj
  else Payload.text text

/-- The normalization chain of `executeClaudeAPICall` (lines 159-217),
applied to the (post-fence-extraction) upstream text: strict parse; on
failure, trim and run the two repair replaces, then reparse; a parsed
object with truthy `name` and `content` is kept structured, anything else
falls back to the verbatim raw text. -/
def classifyText (text : List Char) : Payload :=
  match parseFlatObject text with
  | some obj => ifStory obj text
  | none =>
    match parseFlatObject
        (replaceField quoteK (replaceField contentK (trimChars text))) with
    | some obj => ifStory obj text
    | none => Payload.text text

theorem lookupLast_story_name (n t c q : List Char) :
    lookupLast [(nameK, n), (titleK, t), (contentK, c), (quoteK, q)] nameK
      = some n := by
  simp only [lookupLast, List.foldl_cons, List.foldl_nil]
  rw [if_neg (by decide), if_neg (by decide), if_neg (by decide), if_true]

theorem lookupLast_story_content (n t c q : List Char) :
    lookupLast [(nameK, n), (titleK, t), (contentK, c), (quoteK, q)] contentK
      = some c := by
  simp only [lookupLast, List.foldl_cons, List.foldl_nil]
  rw [if_neg (by decide), if_true]

theorem ifStory_story (n t c q : List Char) (hn : n ≠ []) (hc : c ≠ [])
    (text : List Char) :
    ifStory [(nameK, n), (titleK, t), (contentK, c), (quoteK, q)] text
      = Payload.obj [(nameK, n), (titleK, t), (contentK, c), (quoteK, q)] := by
  have h1 : n.isEmpty = false := by
    cases n with
    | nil => exact absurd rfl hn
    | cons a l => rfl
  have h2 : c.isEmpty = false := by
    cases c with
    | nil => exact absurd rfl hc
    | cons a l => rfl
  rw [ifStory, if_pos]
  rw [truthyField, truthyField, lookupLast_story_name, lookupLast_story_content]
  simp [h1, h2]

/- ### The generation call and one pipeline cycle -/

/-- Outcome of the one upstream HTTP call, as distinguished by
`executeClaudeAPICall`: a usable text (the envelope's
`response.data.content[0].text`, after the markdown-fence extraction
step), an envelope with no usable text (line 222,
`throw new Error('Invalid response from Claude API')`), or an axios
rejection — non-2xx, timeout or network failure — carrying its message. -/
inductive Upstream where
  | ok (text : List Char)
  | badEnvelope
  | netError (msg : String)

/-- One audit-log append (`logRequest`): the outcome field of the record. -/
inductive AuditOutcome where
  | success
  | failure (msg : String)
deriving DecidableEq

/-- The observable effects of one `executeClaudeAPICall` invocation: the
Result Store snapshot it writes, whether a network request was issued, and
the audit-log append it performs. -/
structure CallEffects where
  snap : Snapshot
  networkAttempted : Bool
  log : Option AuditOutcome
deriving DecidableEq

/-- The error field written on a failed cycle (lines 230, 307):
`'Processing failed'` in production, the raw message otherwise. -/
def fallbackError (production : Bool) (msg : String) : String :=
  if production then "Processing failed" else msg

/-- The failure snapshot (lines 226-231 / 303-308). -/
def errorSnapshot (production : Bool) (msg now : String) : Snapshot :=
  { response := Payload.text (("Error processing request").data)
    isProcessing := false
    lastModified := some now
    error := some (fallbackError production msg) }

/-- `executeClaudeAPICall` (lines 118-234): with no credential, write the
config-error snapshot and do not attempt the call; otherwise issue the one
network call and classify/record its outcome. -/
def executeClaudeAPICall (apiKey : Option String) (production : Bool)
    (u : Upstream) (now : String) : CallEffects :=
  match apiKey with
  | none =>
      { snap := { response := Payload.text (("API key not configured").data)
                  isProcessing := false
                  lastModified := some now
                  error := some ("CLAUDE_API_KEY not configured") }
        networkAttempted := false
        log := some (AuditOutcome.failure ("CLAUDE_API_KEY not configured")) }
  | some _ =>
      match u with
      | Upstream.ok text =>
          { snap := { response := classifyText text
                      isProcessing := false
                      lastModified := some now
                      error := none }
            networkAttempted := true
            log := some AuditOutcome.success }
      | Upstream.badEnvelope =>
          { snap := errorSnapshot production ("Invalid response from Claude API") now
            networkAttempted := true
            log := some (AuditOutcome.failure ("Invalid response from Claude API")) }
      | Upstream.netError msg =>
          { snap := errorSnapshot production msg now
            networkAttempted := true
            log := some (AuditOutcome.failure msg) }

/-- What the prompt-file read yields in `processPromptFile`: file missing
(lines 252-260), empty after trim (lines 264-272), a read error caught by
the outer catch (lines 301-308), or a usable base prompt. -/
inductive PromptSrc where
  | missing
  | emptyAfterTrim
  | readError (msg : String)
  | ok (base : String)

/-- The environment of one pipeline cycle. -/
structure CycleCfg where
  src : PromptSrc
  apiKey : Option String
  production : Bool
  upstream : Upstream
  now : String

def missingSnap : Snapshot :=
  { response := Payload.text (("prompt.txt file not found").data)
    isProcessing := false
    lastModified := none
    error := some ("File not found") }

def emptyPromptSnap : Snapshot :=
  { response := Payload.text (("Please add your prompt to prompt.txt").data)
    isProcessing := false
    lastModified := none
    error := none }

/-- The effects of one pipeline cycle (`processPromptFile` body): early
exits for missing/empty prompt (which perform no network call and no audit
append), the outer catch, or the full generation call. -/
def cycleEffects (c : CycleCfg) : CallEffects :=
  match c.src with
  | PromptSrc.missing => { snap := missingSnap, networkAttempted := false, log := none }
  | PromptSrc.emptyAfterTrim =>
      { snap := emptyPromptSnap, networkAttempted := false, log := none }
  | PromptSrc.readError msg =>
      { snap := errorSnapshot c.production msg c.now
        networkAttempted := false
        log := none }
  | PromptSrc.ok _ => executeClaudeAPICall c.apiKey c.production c.upstream c.now

def cycleFinal (c : CycleCfg) : Snapshot := (cycleEffects c).snap

/-- Claim C5: for every canonically serialized Story JSON object whose
`name`, `title`, `shareableQuote` values are quote/backslash/control-free
and whose `content` value additionally contains a literal newline (and
possibly carriage returns and tabs), the strict JSON parse fails, but the
repair pass (escaping literal newline/carriage-return/tab inside the
`content` and `shareableQuote` string values, then reparsing) succeeds and
yields the Story as a structured object in which `content` is preserved
verbatim — the literal newline characters appear as actual newline
characters in the field value. -/
theorem repair_roundTrip (n t c q : List Char)
    (hn : ∀ x ∈ n, safeChar x = true) (ht : ∀ x ∈ t, safeChar x = true)
    (hc : ∀ x ∈ c, contentChar x = true) (hq : ∀ x ∈ q, safeChar x = true)
    (hnl : '\n' ∈ c) (hne : n ≠ []) :
    parseFlatObject (mkStoryRaw n t c q) = none ∧
    classifyText (mkStoryRaw n t c q)
      = Payload.obj [(nameK, n), (titleK, t), (contentK, c), (quoteK, q)] := by
  have hfail : parseFlatObject (mkStoryRaw n t c q) = none :=
    parseFlatObject_mkStory_fail n t c q hn ht
      (fun rest => psb_ctrl_fail hc hnl rest)
  have hnq : ∀ u ∈ n, u ≠ '"' := fun u hu => (safeChar_spec (hn u hu)).1
  have htq : ∀ u ∈ t, u ≠ '"' := fun u hu => (safeChar_spec (ht u hu)).1
  have hqq : ∀ u ∈ q, u ≠ '"' := fun u hu => (safeChar_spec (hq u hu)).1
  have hcq : ∀ u ∈ c, u ≠ '"' ∧ u ≠ '\\' :=
    fun u hu => contentChar_not_quote (hc u hu)
  have hq2 : ∀ u ∈ q, u ≠ '"' ∧ u ≠ '\\' :=
    fun u hu => ⟨(safeChar_spec (hq u hu)).1, (safeChar_spec (hq u hu)).2.1⟩
  have hqcontent : ∀ x ∈ q, contentChar x = true :=
    fun x hx => by simp [contentChar, hq x hx]
  have htrim := trimChars_mkStory n t c q
  have hrep1 := replaceField_content n t c q hnq htq hcq hqq
  have hrep2 := replaceField_quote n t (escapeCtl3 c) q hnq htq
    (escapeCtl3_no_quote hc) hq2
  have hparse2 := parseFlatObject_mkStory n t (escapeCtl3 c) c
    (escapeCtl3 q) q hn ht
    (fun rest => psb_escaped hc rest) (fun rest => psb_escaped hqcontent rest)
  have hcnil : c ≠ [] := List.ne_nil_of_mem hnl
  refine ⟨hfail, ?_⟩
  unfold classifyText
  rw [hfail]
  simp only []
  rw [htrim, hrep1, hrep2, hparse2]
  simp only []
  exact ifStory_story n t c q hne hcnil _

theorem repair_roundTrip_witness :
    ((('\n' ∈ ('a' :: '\n' :: 'b' :: [])) ∧ ('X' :: [] : List Char) ≠ []) ∧
      (parseFlatObject (mkStoryRaw ('X' :: []) ('T' :: [])
        ('a' :: '\n' :: 'b' :: []) ('u' :: [])) = none ∧
      classifyText (mkStoryRaw ('X' :: []) ('T' :: [])
        ('a' :: '\n' :: 'b' :: []) ('u' :: []))
        = Payload.obj [(nameK, 'X' :: []), (titleK, 'T' :: []),
            (contentK, 'a' :: '\n' :: 'b' :: []), (quoteK, 'u' :: [])])) :=
  ⟨⟨by decide, by decide⟩,
   repair_roundTrip ('X' :: []) ('T' :: []) ('a' :: '\n' :: 'b' :: [])
     ('u' :: []) (by decide) (by decide) (by decide) (by decide)
     (by decide) (by decide)⟩

/-- Claim C6: upstream text that parses as JSON but lacks a truthy (present
and non-empty) `content` or `name` field is not classified as a Story: the
raw text is kept verbatim as the payload and `error` is null — a degraded
payload, not an error condition (lines 195-217). -/
theorem rawFallback_nonStory (text : List Char)
    (obj : List (List Char × List Char))
    (hp : parseFlatObject text = some obj)
    (hfields : (truthyField obj nameK && truthyField obj contentK) = false) :
    classifyText text = Payload.text text ∧
    ∀ (key : String) (production : Bool) (now : String),
      (executeClaudeAPICall (some key) production (Upstream.ok text) now).snap
        = { response := Payload.text text
            isProcessing := false
            lastModified := some now
            error := none } := by
  have hclass : classifyText text = Payload.text text := by
    unfold classifyText
    rw [hp]
    simp only []
    rw [ifStory, if_neg (by simp [hfields])]
  refine ⟨hclass, ?_⟩
  intro key production now
  simp [executeClaudeAPICall, hclass]

theorem rawFallback_nonStory_witness :
    (parseFlatObject ('{' :: '"' :: 'n' :: 'a' :: 'm' :: 'e' :: '"' :: ':' ::
        '"' :: 'X' :: '"' :: '}' :: []) = some [(nameK, 'X' :: [])] ∧
      (truthyField [(nameK, 'X' :: [])] nameK
        && truthyField [(nameK, 'X' :: [])] contentK) = false) ∧
    (classifyText ('{' :: '"' :: 'n' :: 'a' :: 'm' :: 'e' :: '"' :: ':' ::
        '"' :: 'X' :: '"' :: '}' :: [])
      = Payload.text ('{' :: '"' :: 'n' :: 'a' :: 'm' :: 'e' :: '"' :: ':' ::
        '"' :: 'X' :: '"' :: '}' :: []) ∧
    ∀ (key : String) (production : Bool) (now : String),
      (executeClaudeAPICall (some key) production
        (Upstream.ok ('{' :: '"' :: 'n' :: 'a' :: 'm' :: 'e' :: '"' :: ':' ::
          '"' :: 'X' :: '"' :: '}' :: [])) now).snap
        = { response := Payload.text ('{' :: '"' :: 'n' :: 'a' :: 'm' :: 'e' ::
              '"' :: ':' :: '"' :: 'X' :: '"' :: '}' :: [])
            isProcessing := false
            lastModified := some now
            error := none }) :=
  ⟨⟨by decide, by decide⟩,
   rawFallback_nonStory _ [(nameK, 'X' :: [])] (by decide) (by decide)⟩

/-- Claim C7: a generation cycle with no configured credential issues no
network request, and the Result Store snapshot it writes carries
`error = "CLAUDE_API_KEY not configured"` and the user-safe payload
`"API key not configured"` (lines 118-130). -/
theorem missingCredential_noCall (production : Bool) (u : Upstream)
    (now : String) :
    (executeClaudeAPICall none production u now).networkAttempted = false ∧
    (executeClaudeAPICall none production u now).snap.error
      = some ("CLAUDE_API_KEY not configured") ∧
    (executeClaudeAPICall none production u now).snap.response
      = Payload.text (("API key not configured").data) := by
  simp [executeClaudeAPICall]

/-- Is this cycle one of the failing configurations of the claim: missing
credential, upstream error (non-2xx / timeout / network), or
no-usable-text (normalization failure)? -/
def cycleFails (c : CycleCfg) : Bool :=
  match c.src, c.apiKey, c.upstream with
  | PromptSrc.ok _, none, _ => true
  | PromptSrc.ok _, some _, Upstream.badEnvelope => true
  | PromptSrc.ok _, some _, Upstream.netError _ => true
  | _, _, _ => false

/-- The user-safe fallback payloads the code writes on failures. -/
def safeFallbacks : List Payload :=
  [Payload.text (("API key not configured").data),
   Payload.text (("Error processing request").data)]

/-- Claim C3: every failing pipeline cycle (missing credential, upstream
error, normalization failure) writes a snapshot with a non-null error and
a user-safe fallback payload drawn from fixed literals (never raw internal
detail), appends a failure record to the audit log, and the coordinator's
finish step treats the failure snapshot exactly like any other snapshot —
queue draining continues unchanged (the `finally` block at lines 309-317
runs regardless), and no exception escapes the pipeline (every
configuration yields a well-formed snapshot by totality of the model). -/
theorem failure_recorded_and_drains (c : CycleCfg) (h : cycleFails c = true) :
    (cycleFinal c).error ≠ none ∧
    (cycleFinal c).response ∈ safeFallbacks ∧
    (∃ m, (cycleEffects c).log = some (AuditOutcome.failure m)) ∧
    (∀ (s : CoordState) (snap2 : Snapshot),
      coordControl (coordStep s (CoordEvent.finish (cycleFinal c)))
        = coordControl (coordStep s (CoordEvent.finish snap2))) := by
  have hcontrol : ∀ (sn : Snapshot) (s : CoordState) (snap2 : Snapshot),
      coordControl (coordStep s (CoordEvent.finish sn))
        = coordControl (coordStep s (CoordEvent.finish snap2)) := by
    intro sn s snap2
    cases hp : s.processing with
    | false => simp [coordStep, hp]
    | true => cases hq : s.queue <;> simp [coordStep, hp, hq, coordControl]
  obtain ⟨src, apiKey, production, upstream, now⟩ := c
  cases src with
  | missing => simp [cycleFails] at h
  | emptyAfterTrim => simp [cycleFails] at h
  | readError msg => simp [cycleFails] at h
  | ok base =>
    cases apiKey with
    | none =>
      refine ⟨?_, ?_, ?_, fun s snap2 => hcontrol _ s snap2⟩ <;>
        simp [cycleFinal, cycleEffects, executeClaudeAPICall, safeFallbacks]
    | some k =>
      cases upstream with
      | ok text => simp [cycleFails] at h
      | badEnvelope =>
        refine ⟨?_, ?_, ?_, fun s snap2 => hcontrol _ s snap2⟩ <;>
          simp [cycleFinal, cycleEffects, executeClaudeAPICall, errorSnapshot,
            safeFallbacks]
      | netError msg =>
        refine ⟨?_, ?_, ?_, fun s snap2 => hcontrol _ s snap2⟩ <;>
          simp [cycleFinal, cycleEffects, executeClaudeAPICall, errorSnapshot,
            safeFallbacks]

def failCfgExample : CycleCfg :=
  { src := PromptSrc.ok ("p"), apiKey := none, production := false,
    upstream := Upstream.badEnvelope, now := ("2025-01-01T00:00:00.000Z") }

theorem failure_recorded_and_drains_witness :
    (cycleFails failCfgExample = true) ∧
    ((cycleFinal failCfgExample).error ≠ none ∧
     (cycleFinal failCfgExample).response ∈ safeFallbacks ∧
     (∃ m, (cycleEffects failCfgExample).log = some (AuditOutcome.failure m)) ∧
     (∀ (s : CoordState) (snap2 : Snapshot),
        coordControl (coordStep s (CoordEvent.finish (cycleFinal failCfgExample)))
          = coordControl (coordStep s (CoordEvent.finish snap2)))) :=
  ⟨by decide, failure_recorded_and_drains failCfgExample (by decide)⟩

/- ### Store writes: shape and reader-observable states

Writes to `currentResult` take two forms in the source: whole-snapshot
replacement (`currentResult = { ... }`) and in-place mutation of a single
field (`currentResult.isProcessing = true`, etc., lines 295-297).  Request
handlers run on the same thread and can only interleave at suspension
points; within one cycle the only real suspension is the awaited network
call, so writes are grouped into synchronous blocks and a concurrent
reader observes exactly the block boundaries. -/

inductive StoreWrite where
  | whole (s : Snapshot)
  | fieldProcessing (b : Bool)
  | fieldResponse (p : Payload)
  | fieldError (e : Option String)
deriving DecidableEq

def applyWrite (s : Snapshot) : StoreWrite → Snapshot
  | StoreWrite.whole s2 => s2
  | StoreWrite.fieldProcessing b => { s with isProcessing := b }
  | StoreWrite.fieldResponse p => { s with response := p }
  | StoreWrite.fieldError e => { s with error := e }

def isWholeWrite : StoreWrite → Bool
  | StoreWrite.whole _ => true
  | _ => false

/-- The transient processing marker, as the three field mutations of
lines 295-297 leave the snapshot (lastModified is untouched). -/
def markerOf (s0 : Snapshot) : Snapshot :=
  { s0 with isProcessing := true
            response := Payload.text (("Processing...").data)
            error := none }

/-- The sequence of store writes one cycle performs, in order: the early
exits write one whole snapshot; the prompt path mutates the three marker
fields in place (lines 295-297) and then `executeClaudeAPICall` writes the
whole outcome snapshot. -/
def cycleWrites (c : CycleCfg) : List StoreWrite :=
  match c.src with
  | PromptSrc.missing => [StoreWrite.whole missingSnap]
  | PromptSrc.emptyAfterTrim => [StoreWrite.whole emptyPromptSnap]
  | PromptSrc.readError msg =>
      [StoreWrite.whole (errorSnapshot c.production msg c.now)]
  | PromptSrc.ok _ =>
      [StoreWrite.fieldProcessing true,
       StoreWrite.fieldResponse (Payload.text (("Processing...").data)),
       StoreWrite.fieldError none,
       StoreWrite.whole
         (executeClaudeAPICall c.apiKey c.production c.upstream c.now).snap]

/-- The same writes grouped into synchronous blocks: when the credential
is present the awaited network call suspends between the marker mutations
and the outcome write; otherwise the whole cycle runs in one block. -/
def cycleBlocks (c : CycleCfg) : List (List StoreWrite) :=
  match c.src with
  | PromptSrc.missing => [[StoreWrite.whole missingSnap]]
  | PromptSrc.emptyAfterTrim => [[StoreWrite.whole emptyPromptSnap]]
  | PromptSrc.readError msg =>
      [[StoreWrite.whole (errorSnapshot c.production msg c.now)]]
  | PromptSrc.ok _ =>
      match c.apiKey with
      | none =>
          [[StoreWrite.fieldProcessing true,
            StoreWrite.fieldResponse (Payload.text (("Processing...").data)),
            StoreWrite.fieldError none,
            StoreWrite.whole
              (executeClaudeAPICall none c.production c.upstream c.now).snap]]
      | some k =>
          [[StoreWrite.fieldProcessing true,
            StoreWrite.fieldResponse (Payload.text (("Processing...").data)),
            StoreWrite.fieldError none],
           [StoreWrite.whole
              (executeClaudeAPICall (some k) c.production c.upstream c.now).snap]]

theorem cycleBlocks_flatten (c : CycleCfg) :
    (cycleBlocks c).flatten = cycleWrites c := by
  obtain ⟨src, apiKey, production, upstream, now⟩ := c
  cases src with
  | missing => simp [cycleBlocks, cycleWrites]
  | emptyAfterTrim => simp [cycleBlocks, cycleWrites]
  | readError msg => simp [cycleBlocks, cycleWrites]
  | ok base => cases apiKey <;> simp [cycleBlocks, cycleWrites]

def applyBlock (s : Snapshot) (b : List StoreWrite) : Snapshot :=
  b.foldl applyWrite s

/-- The store states a concurrent reader can observe around one cycle:
the state before the cycle and the state at each suspension point and at
completion. -/
def obsStates (s0 : Snapshot) : List (List StoreWrite) → List Snapshot
  | [] => [s0]
  | b :: bs => s0 :: obsStates (applyBlock s0 b) bs

/-- Counterexample to claim C4 as stated: it is not the case that every
store write of every cycle replaces the whole snapshot — the prompt path
mutates the `isProcessing`, `response` and `error` fields of the current
snapshot in place (lines 295-297). -/
theorem atomicSwap_counterexample :
    ¬ (∀ (c : CycleCfg), ∀ w ∈ cycleWrites c, isWholeWrite w = true) := by
  intro hall
  have h := hall failCfgExample (StoreWrite.fieldProcessing true)
    (by simp [cycleWrites, failCfgExample])
  simp [isWholeWrite] at h

/-- Claim C4, amended: every cycle-final outcome write replaces the whole
snapshot; the transient processing marker is written by mutating three
fields in place, but all three mutations sit inside one synchronous block
with no suspension point, so every reader-observable store state is a
complete snapshot — the pre-cycle state, the full processing marker, or
the cycle's final snapshot — and no reader can observe a partially
written snapshot. -/
theorem atomicSwap_amended (c : CycleCfg) (s0 : Snapshot) :
    ∀ st ∈ obsStates s0 (cycleBlocks c),
      st = s0 ∨ st = markerOf s0 ∨ st = cycleFinal c := by
  obtain ⟨src, apiKey, production, upstream, now⟩ := c
  intro st hst
  cases src with
  | missing =>
    simp [cycleBlocks, obsStates, applyBlock, applyWrite] at hst
    rcases hst with rfl | rfl
    · exact Or.inl rfl
    · exact Or.inr (Or.inr (by simp [cycleFinal, cycleEffects]))
  | emptyAfterTrim =>
    simp [cycleBlocks, obsStates, applyBlock, applyWrite] at hst
    rcases hst with rfl | rfl
    · exact Or.inl rfl
    · exact Or.inr (Or.inr (by simp [cycleFinal, cycleEffects]))
  | readError msg =>
    simp [cycleBlocks, obsStates, applyBlock, applyWrite] at hst
    rcases hst with rfl | rfl
    · exact Or.inl rfl
    · exact Or.inr (Or.inr (by simp [cycleFinal, cycleEffects]))
  | ok base =>
    cases apiKey with
    | none =>
      simp [cycleBlocks, obsStates, applyBlock, applyWrite] at hst
      rcases hst with rfl | rfl
      · exact Or.inl rfl
      · exact Or.inr (Or.inr (by simp [cycleFinal, cycleEffects]))
    | some k =>
      simp [cycleBlocks, obsStates, applyBlock, applyWrite] at hst
      rcases hst with rfl | rfl | rfl
      · exact Or.inl rfl
      · exact Or.inr (Or.inl (by simp [markerOf]))
      · exact Or.inr (Or.inr (by simp [cycleFinal, cycleEffects]))

def hitCfgExample : CycleCfg :=
  { src := PromptSrc.ok ("p"), apiKey := some ("k"), production := false,
    upstream := Upstream.badEnvelope, now := ("2025-01-01T00:00:00.000Z") }

theorem atomicSwap_amended_witness :
    (markerOf initialResult
        ∈ obsStates initialResult (cycleBlocks hitCfgExample)) ∧
    (markerOf initialResult = initialResult ∨
     markerOf initialResult = markerOf initialResult ∨
     markerOf initialResult = cycleFinal hitCfgExample) :=
  ⟨by decide,
   atomicSwap_amended hitCfgExample initialResult
     (markerOf initialResult) (by decide)⟩

theorem cycleFinal_not_processing (c : CycleCfg) :
    (cycleFinal c).isProcessing = false := by
  obtain ⟨src, apiKey, production, upstream, now⟩ := c
  cases src with
  | missing => simp [cycleFinal, cycleEffects, missingSnap]
  | emptyAfterTrim => simp [cycleFinal, cycleEffects, emptyPromptSnap]
  | readError msg => simp [cycleFinal, cycleEffects, errorSnapshot]
  | ok base =>
    cases apiKey with
    | none => simp [cycleFinal, cycleEffects, executeClaudeAPICall]
    | some k =>
      cases upstream <;>
        simp [cycleFinal, cycleEffects, executeClaudeAPICall, errorSnapshot]

theorem foldl_cycleBlocks (c : CycleCfg) (s0 : Snapshot) :
    (cycleBlocks c).foldl applyBlock s0 = cycleFinal c := by
  obtain ⟨src, apiKey, production, upstream, now⟩ := c
  cases src with
  | missing => simp [cycleBlocks, applyBlock, applyWrite, cycleFinal, cycleEffects]
  | emptyAfterTrim =>
    simp [cycleBlocks, applyBlock, applyWrite, cycleFinal, cycleEffects]
  | readError msg =>
    simp [cycleBlocks, applyBlock, applyWrite, cycleFinal, cycleEffects]
  | ok base =>
    cases apiKey <;>
      simp [cycleBlocks, applyBlock, applyWrite, cycleFinal, cycleEffects]

/-- Every observable state of one cycle with `isProcessing = true` is the
processing marker, provided the cycle starts from a non-processing state. -/
theorem obsStates_processing (c : CycleCfg) (s0 : Snapshot)
    (h0 : s0.isProcessing = false) :
    ∀ st ∈ obsStates s0 (cycleBlocks c), st.isProcessing = true →
      st.response = Payload.text (("Processing...").data) ∧ st.error = none := by
  intro st hst hp
  rcases atomicSwap_amended c s0 st hst with rfl | rfl | rfl
  · rw [h0] at hp
    cases hp
  · exact ⟨rfl, rfl⟩
  · rw [cycleFinal_not_processing] at hp
    cases hp

/-- The store states observable over a whole sequence of cycles. -/
def traceStates (s0 : Snapshot) : List CycleCfg → List Snapshot
  | [] => [s0]
  | c :: cs =>
      obsStates s0 (cycleBlocks c)
        ++ traceStates ((cycleBlocks c).foldl applyBlock s0) cs

/-- Claim C9: at every reader-observable point of every execution (any
sequence of cycles from the startup store value), a snapshot with
`isProcessing = true` carries the transient placeholder `"Processing..."`
as its payload and a null error — never a prior successful payload. -/
theorem processingPlaceholder (cs : List CycleCfg) :
    ∀ st ∈ traceStates initialResult cs, st.isProcessing = true →
      st.response = Payload.text (("Processing...").data) ∧ st.error = none := by
  have main : ∀ (cs : List CycleCfg) (s0 : Snapshot),
      s0.isProcessing = false →
      ∀ st ∈ traceStates s0 cs, st.isProcessing = true →
        st.response = Payload.text (("Processing...").data)
          ∧ st.error = none := by
    intro cs
    induction cs with
    | nil =>
      intro s0 h0 st hst hp
      simp [traceStates] at hst
      subst hst
      rw [h0] at hp
      cases hp
    | cons c cs ih =>
      intro s0 h0 st hst hp
      rw [traceStates] at hst
      rcases List.mem_append.mp hst with hmem | hmem
      · exact obsStates_processing c s0 h0 st hmem hp
      · rw [foldl_cycleBlocks] at hmem
        exact ih (cycleFinal c) (cycleFinal_not_processing c) st hmem hp
  exact main cs initialResult rfl

theorem processingPlaceholder_witness :
    ((markerOf initialResult ∈ traceStates initialResult [hitCfgExample]) ∧
      (markerOf initialResult).isProcessing = true) ∧
    ((markerOf initialResult).response
        = Payload.text (("Processing...").data) ∧
      (markerOf initialResult).error = none) :=
  ⟨⟨by decide, by decide⟩,
   processingPlaceholder [hitCfgExample] (markerOf initialResult)
     (by decide) (by decide)⟩

/- ### The prompt augmenter (lines 274-293)

`processPromptFile` builds the final prompt from the base prompt by
appending a metadata block with four labelled fields (generation id = the
random seed draw, timestamp, unique request id, random number) and five
numbered critical instructions.  The per-cycle nonce draws
(`new Date().toISOString()`, `Math.random().toString(36).substring(7)`,
`Date.now() + Math.random()`, `Math.floor(Math.random() * 1000000)`) are
modelled as explicit string inputs. -/

def metadataFields (randomSeed timestamp uniqueId randomNumber : String) :
    List (String × String) :=
  [("Generation ID", randomSeed), ("Timestamp", timestamp),
   ("Unique Request ID", uniqueId), ("Random Seed", randomNumber)]

def renderMetaField (f : String × String) : String :=
  "- " ++ f.1 ++ ": " ++ f.2

def criticalInstructions : List String :=
  ["1. Generate a story about a COMPLETELY DIFFERENT historical figure than any previous generation",
   "2. Use the random seed above to select a unique figure",
   "3. Vary the time period, region, and theme",
   "4. NEVER repeat the same historical figure",
   "5. Prioritize lesser-known figures to maximize variety"]

def joinLines : List String → String
  | [] => ""
  | x :: [] => x
  | x :: xs => x ++ "\n" ++ joinLines xs

def augmentHeader : String :=
  "\n\nGeneration Metadata (use this to ensure uniqueness):\n"

def augmentMid : String := "\n\nCRITICAL INSTRUCTIONS:\n"

/-- The metadata block appended after the base prompt (the template
literal of lines 280-293, from its first newline on). -/
def metaBlock (timestamp randomSeed uniqueId randomNumber : String) : String :=
  augmentHeader
    ++ joinLines
        ((metadataFields randomSeed timestamp uniqueId randomNumber).map
          renderMetaField)
    ++ augmentMid ++ joinLines criticalInstructions

/-- The augmented prompt: the base prompt followed by the metadata block.
A pure function of its inputs; the base prompt is embedded unmodified. -/
def augmentPrompt (basePrompt timestamp randomSeed uniqueId randomNumber :
    String) : String :=
  basePrompt ++ metaBlock timestamp randomSeed uniqueId randomNumber

/-- Find the first occurrence of `p` and return what follows it. -/
def afterFirst (p : List Char) : List Char → Option (List Char)
  | [] => none
  | c :: cs =>
    match stripPref p (c :: cs) with
    | some r => some r
    | none => afterFirst p cs

/-- Extract the generation id a consumer reads back out of a prompt: the
text after the first `- Generation ID: ` label, up to the end of line. -/
def generationIdOf (s : String) : String :=
  match afterFirst (("- Generation ID: ").data) s.data with
  | some r => String.mk (r.takeWhile (fun c => !(c == '\n')))
  | none => ""

theorem afterFirst_skip {p : List Char} {c0 : Char} {ps v : List Char}
    (hp : p = c0 :: ps) (hv : ∀ ch ∈ v, ch ≠ c0) (rest : List Char) :
    afterFirst p (v ++ rest) = afterFirst p rest := by
  induction v with
  | nil => simp
  | cons c cs ih =>
    have hnone : stripPref p (c :: (cs ++ rest)) = none := by
      rw [hp]
      exact stripPref_cons_ne (hv c (by simp))
    rw [List.cons_append, afterFirst, hnone]
    exact ih (fun ch hch => hv ch (by simp [hch]))

theorem afterFirst_hit {p : List Char} {c0 : Char} {ps : List Char}
    (hp : p = c0 :: ps) (tail : List Char) :
    afterFirst p (p ++ tail) = some tail := by
  rw [hp, List.cons_append, afterFirst, ← List.cons_append, ← hp,
    stripPref_append]

theorem takeWhile_no_nl {v : List Char} (hv : ∀ ch ∈ v, ch ≠ '\n')
    (rest : List Char) :
    (v ++ '\n' :: rest).takeWhile (fun c => !(c == '\n')) = v := by
  induction v with
  | nil => simp
  | cons c cs ih =>
    rw [List.cons_append, List.takeWhile_cons]
    rw [if_pos (by simp [hv c (by simp)])]
    rw [ih (fun ch hch => hv ch (by simp [hch]))]

/-- The generation id read back from the metadata block is exactly the
random seed draw — the timestamp does not enter it. -/
theorem generationIdOf_metaBlock (timestamp randomSeed uniqueId
    randomNumber : String)
    (hseed : ∀ ch ∈ randomSeed.data, ch ≠ '\n') :
    generationIdOf (metaBlock timestamp randomSeed uniqueId randomNumber)
      = randomSeed := by
  have hmb : metaBlock timestamp randomSeed uniqueId randomNumber
      = ((augmentHeader ++ ((("- Generation ID: " ++ randomSeed) ++ "\n")
          ++ joinLines [renderMetaField (("Timestamp"), timestamp),
              renderMetaField (("Unique Request ID"), uniqueId),
              renderMetaField (("Random Seed"), randomNumber)]))
          ++ augmentMid) ++ joinLines criticalInstructions := rfl
  rw [generationIdOf, hmb]
  simp only [String.data_append, List.append_assoc]
  rw [afterFirst_skip rfl (by decide)]
  rw [afterFirst_hit rfl]
  simp only [List.cons_append, List.nil_append]
  rw [takeWhile_no_nl hseed]

/-- Counterexample to claim C8 as stated: the generation id is the random
seed draw alone and does not depend on the time, so two augmentations of
the same base prompt at different timestamps whose random draws coincide
carry identical generation ids. -/
theorem augmentPrompt_counterexample :
    (("2025-01-01T00:00:00.000Z" : String) ≠ ("2025-06-01T12:34:56.000Z")) ∧
    generationIdOf (augmentPrompt ("Tell a story.")
        ("2025-01-01T00:00:00.000Z") ("abc123") ("1700000000000.5")
        ("424242"))
      = generationIdOf (augmentPrompt ("Tell a story.")
        ("2025-06-01T12:34:56.000Z") ("abc123") ("1700009999999.5")
        ("424242")) := by
  constructor
  · decide
  · rfl

/-- Claim C8, amended: the augmented prompt is the base prompt (unmodified
— the augmenter is a pure function) followed by the metadata block, whose
labelled fields are exactly the four of the template and whose critical
instructions are exactly the five numbered ones; the generation id
embedded in the block is exactly the cycle's random seed draw, so it is
independent of the timestamp: augmentations with distinct seed draws carry
distinct ids, but augmentations at different times with the same draw
carry the same id. -/
theorem augmentPrompt_amended (basePrompt timestamp randomSeed uniqueId
    randomNumber : String)
    (hseed : ∀ ch ∈ randomSeed.data, ch ≠ '\n') :
    augmentPrompt basePrompt timestamp randomSeed uniqueId randomNumber
      = basePrompt ++ metaBlock timestamp randomSeed uniqueId randomNumber ∧
    (metadataFields randomSeed timestamp uniqueId randomNumber).length = 4 ∧
    criticalInstructions.length = 5 ∧
    generationIdOf (metaBlock timestamp randomSeed uniqueId randomNumber)
      = randomSeed ∧
    (∀ timestamp2 uniqueId2 randomNumber2 : String,
      generationIdOf (metaBlock timestamp2 randomSeed uniqueId2 randomNumber2)
        = generationIdOf
            (metaBlock timestamp randomSeed uniqueId randomNumber)) := by
  refine ⟨rfl, rfl, rfl, generationIdOf_metaBlock _ _ _ _ hseed, ?_⟩
  intro timestamp2 uniqueId2 randomNumber2
  rw [generationIdOf_metaBlock _ _ _ _ hseed,
    generationIdOf_metaBlock _ _ _ _ hseed]

theorem augmentPrompt_amended_witness :
    (∀ ch ∈ (("abc123" : String)).data, ch ≠ '\n') ∧
    (augmentPrompt ("Tell a story.") ("2025-01-01T00:00:00.000Z")
        ("abc123") ("1700000000000.5") ("424242")
      = ("Tell a story.") ++ metaBlock ("2025-01-01T00:00:00.000Z")
          ("abc123") ("1700000000000.5") ("424242") ∧
    (metadataFields ("abc123") ("2025-01-01T00:00:00.000Z")
        ("1700000000000.5") ("424242")).length = 4 ∧
    criticalInstructions.length = 5 ∧
    generationIdOf (metaBlock ("2025-01-01T00:00:00.000Z") ("abc123")
        ("1700000000000.5") ("424242")) = ("abc123") ∧
    (∀ timestamp2 uniqueId2 randomNumber2 : String,
      generationIdOf (metaBlock timestamp2 ("abc123") uniqueId2
          randomNumber2)
        = generationIdOf (metaBlock ("2025-01-01T00:00:00.000Z")
            ("abc123") ("1700000000000.5") ("424242")))) :=
  ⟨by decide,
   augmentPrompt_amended ("Tell a story.") ("2025-01-01T00:00:00.000Z")
     ("abc123") ("1700000000000.5") ("424242") (by decide)⟩

/- ### The API-key middleware (`requireApiKey`, security.js lines 119-145)

The provided key (header or query) and the configured `APP_API_KEY` are
modelled as optional strings.  `Buffer.from` length comparison is byte
length (UTF-8), and `crypto.timingSafeEqual` on equal-length buffers holds
exactly when the strings are equal (UTF-8 encoding is injective); the
middleware either calls `next()` (allow) or responds 401 (reject). -/

inductive AuthDecision where
  | allow
  | reject (msg : String)
deriving DecidableEq

def requireApiKey (providedKey expectedKey : Option String) : AuthDecision :=
  match expectedKey with
  | none => AuthDecision.allow
  | some e =>
    match providedKey with
    | none => AuthDecision.reject ("API key required")
    | some p =>
      if p.utf8ByteSize ≠ e.utf8ByteSize then
        AuthDecision.reject ("Invalid API key")
      else if p ≠ e then AuthDecision.reject ("Invalid API key")
      else AuthDecision.allow

/-- Claim C10: with no `APP_API_KEY` configured the middleware admits
every request unconditionally (lines 123-126); a 401 rejection occurs only
when an expected key is configured and the provided key is missing or
differs from it; a matching key is admitted. -/
theorem requireApiKey_openWhenUnset :
    (∀ provided, requireApiKey provided none = AuthDecision.allow) ∧
    (∀ provided expected msg,
      requireApiKey provided (some expected) = AuthDecision.reject msg →
        provided = none ∨ ∃ p, provided = some p ∧ p ≠ expected) ∧
    (∀ expected, requireApiKey (some expected) (some expected)
        = AuthDecision.allow) := by
  refine ⟨fun provided => rfl, ?_, ?_⟩
  · intro provided expected msg h
    cases provided with
    | none => exact Or.inl rfl
    | some p =>
      refine Or.inr ⟨p, rfl, ?_⟩
      intro hpe
      subst hpe
      simp [requireApiKey] at h
  · intro expected
    simp [requireApiKey]

theorem requireApiKey_openWhenUnset_witness :
    (requireApiKey none (some ("secret"))
        = AuthDecision.reject ("API key required")) ∧
    ((none : Option String) = none
      ∨ ∃ p, (none : Option String) = some p ∧ p ≠ ("secret")) :=
  ⟨rfl, requireApiKey_openWhenUnset.2.1 none ("secret")
    ("API key required") rfl⟩
